import Mathlib

/-!
Verification development for the SPV core of `electrum_nmc/electrum/verifier.py`.

The Python module is shallowly embedded below.  Transaction ids and hashes are
hex digests in the source; both are modelled as opaque `Nat` identifiers.
Heights are Python ints, modelled as `Int` (the dispatcher explicitly handles
non-positive heights).  Python `//` is floor division, modelled by `Int.fdiv`.
External collaborators that are not part of `src/` (the hash function
`hash_merkle_root` from `.merkle`, `hash_header` from `.blockchain`, the
checkpoint constant `constants.net.max_checkpoint()`, the network transport and
the wallet) are passed in as explicit parameters of the embedded functions.
-/

set_option linter.unusedVariables false

abbrev TxId := Nat

abbrev Hash := Nat

/-- A block header, as consumed by the verifier: a dict with at least the
`merkle_root` and `timestamp` fields (`header.get('merkle_root')`,
`header.get('timestamp')` in the source). -/
structure BlockHeader where
  merkle_root : Hash
  timestamp : Int
deriving DecidableEq

/-- Failure modes of `verify_tx_is_in_block`.  The source raises
`MissingBlockHeader` for an absent header, the bare
`MerkleVerificationFailure` class with a "merkle branch too long" message
(named `BranchTooLong` in the specification's taxonomy), and
`MerkleRootMismatch` when the recomputed root differs. -/
inductive MerkleVerificationFailure where
  | MissingBlockHeader
  | BranchTooLong
  | MerkleRootMismatch
deriving DecidableEq

/-- `verify_tx_is_in_block` (verifier.py lines 201-213).  `hash_merkle_root`
lives in the `.merkle` module, which is outside `src/`; it is passed in as the
opaque deterministic function `hmr` (branch → leaf hash → position → root).
A supplied header is modelled as `some header`; an absent one as `none`
(`if not block_header` in the source). -/
def verify_tx_is_in_block (hmr : List Hash → Hash → Nat → Hash)
    (tx_hash : Hash) (merkle_branch : List Hash) (leaf_pos_in_tree : Nat)
    (block_header : Option BlockHeader) (block_height : Int) :
    Except MerkleVerificationFailure Unit :=
  match block_header with
  | none => .error .MissingBlockHeader
  | some header =>
    if merkle_branch.length > 30 then
      .error .BranchTooLong
    else if header.merkle_root ≠ hmr merkle_branch tx_hash leaf_pos_in_tree then
      .error .MerkleRootMismatch
    else
      .ok ()

/-- Ceiling of the base-2 logarithm, as computed by
`ceil(log(n, 2))` in real arithmetic: the fuel-driven recursion mirrors
`ceil(log2 n) = 1 + ceil(log2 (ceil (n / 2)))` for `n ≥ 2`.  The fuel is only
there to make the recursion structural; `n` steps always suffice. -/
def ceilLog2Aux : Nat → Nat → Nat
  | 0, _ => 0
  | fuel + 1, n => if n ≤ 1 then 0 else ceilLog2Aux fuel ((n + 1) / 2) + 1

def ceilLog2 (n : Nat) : Nat :=
  ceilLog2Aux n n

theorem ceilLog2Aux_eq_clog (fuel n : Nat) (h : n ≤ fuel) :
    ceilLog2Aux fuel n = Nat.clog 2 n := by
  induction fuel generalizing n with
  | zero =>
    have hn : n = 0 := Nat.le_zero.mp h
    simp [ceilLog2Aux, hn]
  | succ fuel ih =>
    by_cases h1 : n ≤ 1
    · simp [ceilLog2Aux, h1, Nat.clog_of_right_le_one h1]
    · have h2 : 2 ≤ n := by omega
      have hrec : (n + 1) / 2 ≤ fuel := by omega
      rw [ceilLog2Aux, if_neg h1, ih _ hrec, Nat.clog_of_two_le (by omega) h2]
      norm_num

theorem ceilLog2_eq_clog (n : Nat) : ceilLog2 n = Nat.clog 2 n :=
  ceilLog2Aux_eq_clog n n le_rfl

/-- `is_chunk_cheaper` (verifier.py lines 190-199).  The source computes
`32 * ceil(log(max_checkpoint + 1, 2))`; `ceilLog2` is that quantity in exact
real arithmetic.  `constants.net.max_checkpoint()` is defined outside `src/`
and is passed in as the parameter `max_checkpoint`. -/
def is_chunk_cheaper (max_checkpoint : Nat) (headers_in_chunk_period : Nat) : Bool :=
  let branch_len := 32 * ceilLog2 (max_checkpoint + 1)
  let root_len := 32
  let bare_header_len := 80
  let chunk_len := 2016 * bare_header_len + branch_len + root_len
  let individual_headers_len := headers_in_chunk_period * (branch_len + root_len + bare_header_len)
  decide (chunk_len < individual_headers_len)

/-- The cost-model comparison exactly as the specification words it:
`chunkCost = 2016*80 + branchLen + rootLen`,
`individualCost = n * (branchLen + rootLen + bareHeaderLen)` with
`branchLen = 32 * ceil(log2(maxCheckpointHeight + 1))`, `rootLen = 32`,
`bareHeaderLen = 80`, in exact integer arithmetic (`Nat.clog 2` is the exact
ceiling base-2 logarithm). -/
def spec_chunk_cheaper (max_checkpoint_height n : Nat) : Prop :=
  2016 * 80 + 32 * Nat.clog 2 (max_checkpoint_height + 1) + 32
    < n * (32 * Nat.clog 2 (max_checkpoint_height + 1) + 32 + 80)

/-- C4: for every non-negative `n`, `is_chunk_cheaper n` returns true if and
only if `2016*80 + branchLen + rootLen < n * (branchLen + rootLen + 80)` with
`branchLen = 32 * ceil(log2(maxCheckpointHeight + 1))` and `rootLen = 32`,
computed in exact integer arithmetic. -/
theorem is_chunk_cheaper_iff_spec (max_checkpoint n : Nat) :
    is_chunk_cheaper max_checkpoint n = true ↔ spec_chunk_cheaper max_checkpoint n := by
  rw [is_chunk_cheaper, spec_chunk_cheaper, ceilLog2_eq_clog]
  exact decide_eq_true_iff

/-- C5 (counterexample to the claim as stated): with a checkpoint height of
100, `is_chunk_cheaper` is false at count 480 and true at count 481 — the
truth value increases with the count, so it is not "monotonically
non-increasing", and there is no threshold above which it is false and below
which it is true. -/
theorem is_chunk_cheaper_not_nonincreasing :
    is_chunk_cheaper 100 480 = false ∧ is_chunk_cheaper 100 481 = true := by
  constructor <;> decide

/-- C5 (amended): for every checkpoint height, `is_chunk_cheaper` has a
positive break-even threshold: it is true (chunk cheaper) exactly at counts
at or above the threshold and false (individual proofs cheaper) strictly
below it — so its truth value is monotonically non-decreasing in the count. -/
theorem is_chunk_cheaper_threshold (max_checkpoint : Nat) :
    ∃ t : Nat, 0 < t ∧
      ∀ n : Nat, is_chunk_cheaper max_checkpoint n = true ↔ t ≤ n := by
  refine ⟨(2016 * 80 + 32 * ceilLog2 (max_checkpoint + 1) + 32)
      / (32 * ceilLog2 (max_checkpoint + 1) + 32 + 80) + 1, Nat.succ_pos _, fun n => ?_⟩
  rw [is_chunk_cheaper]
  simp only [decide_eq_true_iff]
  rw [← Nat.div_lt_iff_lt_mul (by omega)]
  omega

/-- C3: whenever no header object is supplied, verification fails with
`MissingBlockHeader`, for all values of the other arguments. -/
theorem verify_absent_header_missing (hmr : List Hash → Hash → Nat → Hash)
    (tx_hash : Hash) (merkle_branch : List Hash) (leaf_pos_in_tree : Nat)
    (block_height : Int) :
    verify_tx_is_in_block hmr tx_hash merkle_branch leaf_pos_in_tree none block_height
      = .error .MissingBlockHeader := rfl

/-- C2 (counterexample to the claim as stated): with a 31-entry branch but an
absent header, verification fails with `MissingBlockHeader`, not with
`BranchTooLong` — the missing-header check runs first, so a branch longer
than 30 does not fail with `BranchTooLong` "regardless of the other
arguments". -/
theorem verify_branch_too_long_counterexample :
    verify_tx_is_in_block (fun _ _ _ => 0) 0 (List.replicate 31 0) 0 none 0
        = .error .MissingBlockHeader ∧
      MerkleVerificationFailure.MissingBlockHeader ≠ .BranchTooLong := by
  exact ⟨rfl, by decide⟩

/-- C2 (amended): whenever a header object is supplied, a branch with more
than 30 entries makes verification fail with `BranchTooLong`, regardless of
the branch's content and of the other arguments. -/
theorem verify_branch_too_long_with_header (hmr : List Hash → Hash → Nat → Hash)
    (tx_hash : Hash) (merkle_branch : List Hash) (leaf_pos_in_tree : Nat)
    (header : BlockHeader) (block_height : Int)
    (hlen : merkle_branch.length > 30) :
    verify_tx_is_in_block hmr tx_hash merkle_branch leaf_pos_in_tree (some header) block_height
      = .error .BranchTooLong := by
  rw [verify_tx_is_in_block, if_pos hlen]

theorem verify_branch_too_long_with_header_witness :
    verify_tx_is_in_block (fun _ _ _ => 0) 0 (List.replicate 31 0) 0 (some ⟨0, 0⟩) 0
      = .error .BranchTooLong :=
  verify_branch_too_long_with_header (fun _ _ _ => 0) 0 (List.replicate 31 0) 0 ⟨0, 0⟩ 0
    (by decide)

/-- The SPV proof-state store (`_reset`, verifier.py lines 55-58):
`merkle_roots` is the Python dict txid → merkle root (modelled as a partial
map), `requested_merkle` the Python set of txids with an in-flight request. -/
structure SpvState where
  merkle_roots : TxId → Option Hash
  requested_merkle : Finset TxId

/-- `SPV.remove_spv_proof_for_tx` (verifier.py lines 182-184):
`merkle_roots.pop(tx_hash, None)` and `requested_merkle.discard(tx_hash)`,
both of which succeed whether or not the id is present. -/
def remove_spv_proof_for_tx (st : SpvState) (tx_hash : TxId) : SpvState :=
  { merkle_roots := fun t => if t = tx_hash then none else st.merkle_roots t,
    requested_merkle := st.requested_merkle.erase tx_hash }

/-- C10: `remove_spv_proof_for_tx` is total (a total function on all states
and ids, mirroring `pop(…, None)` / `discard`, which never fail); afterwards
the id is in neither structure; every other id's entries are unchanged; and
the operation is idempotent. -/
theorem remove_spv_proof_for_tx_spec (st : SpvState) (tx_hash t : TxId)
    (ht : t ≠ tx_hash) :
    (remove_spv_proof_for_tx st tx_hash).merkle_roots tx_hash = none ∧
    tx_hash ∉ (remove_spv_proof_for_tx st tx_hash).requested_merkle ∧
    (remove_spv_proof_for_tx st tx_hash).merkle_roots t = st.merkle_roots t ∧
    (t ∈ (remove_spv_proof_for_tx st tx_hash).requested_merkle
      ↔ t ∈ st.requested_merkle) ∧
    remove_spv_proof_for_tx (remove_spv_proof_for_tx st tx_hash) tx_hash
      = remove_spv_proof_for_tx st tx_hash := by
  refine ⟨by simp [remove_spv_proof_for_tx], Finset.not_mem_erase _ _,
    by simp [remove_spv_proof_for_tx, ht], ?_, ?_⟩
  · simp [remove_spv_proof_for_tx, Finset.mem_erase, ht]
  · simp only [remove_spv_proof_for_tx, Finset.erase_idem]
    congr 1
    funext t'
    by_cases h : t' = tx_hash <;> simp [h]

theorem remove_spv_proof_for_tx_spec_witness :
    (remove_spv_proof_for_tx ⟨fun t => if t = 5 then some 3 else none, {5, 8}⟩ 5).merkle_roots 5
        = none ∧
      5 ∉ (remove_spv_proof_for_tx ⟨fun t => if t = 5 then some 3 else none, {5, 8}⟩ 5).requested_merkle ∧
      (remove_spv_proof_for_tx ⟨fun t => if t = 5 then some 3 else none, {5, 8}⟩ 5).merkle_roots 8
        = (fun t => if t = 5 then some 3 else none) 8 ∧
      (8 ∈ (remove_spv_proof_for_tx ⟨fun t => if t = 5 then some 3 else none, {5, 8}⟩ 5).requested_merkle
        ↔ 8 ∈ ({5, 8} : Finset TxId)) ∧
      remove_spv_proof_for_tx
          (remove_spv_proof_for_tx ⟨fun t => if t = 5 then some 3 else none, {5, 8}⟩ 5) 5
        = remove_spv_proof_for_tx ⟨fun t => if t = 5 then some 3 else none, {5, 8}⟩ 5 :=
  remove_spv_proof_for_tx_spec ⟨fun t => if t = 5 then some 3 else none, {5, 8}⟩ 5 8 (by decide)

/-- An opaque reference to a blockchain object: the source compares the held
`self.blockchain` to `self.network.blockchain()` by object identity
(`cur_chain != old_chain`). -/
abbrev ChainRef := Nat

/-- Modelled from the spec: `wallet.undo_verifications(chain, above_height)`
lives in the wallet collaborator (`address_synchronizer`, not in `src/`).
Per the spec it undoes verification state for all transactions verified above
the given height and returns the list of affected transaction ids, which
thereby re-enter the wallet's unverified pool.  The wallet's verified set is
modelled as an association list txid × verified-height. -/
def undo_verifications (wallet_verified : List (TxId × Int)) (above_height : Int) :
    List TxId :=
  (wallet_verified.filter (fun p => above_height < p.2)).map Prod.fst

/-- `SPV._maybe_undo_verifications` (verifier.py lines 170-180): if the chain
tip object changed, compute the height of the last common block, ask the
wallet to undo verifications above it, and drop the cached proof state of
every affected transaction.  Returns the newly held chain reference, the new
proof state, and the list of affected transaction ids.
`get_height_of_last_common_block_with_chain` lives in `blockchain.py` (not in
`src/`) and is passed in as the parameter `common_height`. -/
def maybe_undo_verifications (old_chain cur_chain : ChainRef)
    (common_height : ChainRef → ChainRef → Int)
    (wallet_verified : List (TxId × Int)) (st : SpvState) :
    ChainRef × SpvState × List TxId :=
  if cur_chain ≠ old_chain then
    let above_height := common_height cur_chain old_chain
    let tx_hashes := undo_verifications wallet_verified above_height
    (cur_chain, tx_hashes.foldl remove_spv_proof_for_tx st, tx_hashes)
  else
    (old_chain, st, [])

theorem foldl_remove_absent (l : List TxId) (st : SpvState) (tx : TxId)
    (h : tx ∈ l ∨ (st.merkle_roots tx = none ∧ tx ∉ st.requested_merkle)) :
    (l.foldl remove_spv_proof_for_tx st).merkle_roots tx = none ∧
      tx ∉ (l.foldl remove_spv_proof_for_tx st).requested_merkle := by
  induction l generalizing st with
  | nil =>
    rcases h with h | h
    · cases h
    · exact h
  | cons t l ih =>
    rw [List.foldl_cons]
    rcases h with h | h
    · rcases List.mem_cons.mp h with rfl | hmem
      · by_cases htl : tx ∈ l
        · exact ih _ (Or.inl htl)
        · refine ih _ (Or.inr ⟨by simp [remove_spv_proof_for_tx], ?_⟩)
          exact Finset.not_mem_erase _ _
      · exact ih _ (Or.inl hmem)
    · refine ih _ (Or.inr ⟨?_, ?_⟩)
      · simp only [remove_spv_proof_for_tx]
        by_cases htt : tx = t <;> simp [htt, h.1]
      · simp only [remove_spv_proof_for_tx]
        exact fun hc => h.2 (Finset.mem_of_mem_erase hc)

/-- C9: after the Reorg Handler processes a tip change, every transaction the
wallet had verified at a height strictly above the common-ancestor height is
in the returned affected list (so it re-enters the unverified pool), has no
entry in `merkle_roots` and no in-flight marker in `requested_merkle`; and
when the tip is unchanged the handler changes nothing. -/
theorem maybe_undo_verifications_spec (old_chain cur_chain : ChainRef)
    (common_height : ChainRef → ChainRef → Int)
    (wallet_verified : List (TxId × Int)) (st : SpvState)
    (tx : TxId) (h : Int) (same_chain : ChainRef) (st' : SpvState)
    (wallet_verified' : List (TxId × Int))
    (hne : cur_chain ≠ old_chain)
    (hmem : (tx, h) ∈ wallet_verified)
    (hh : common_height cur_chain old_chain < h) :
    (maybe_undo_verifications old_chain cur_chain common_height wallet_verified st).2.1.merkle_roots tx
        = none ∧
      tx ∉ (maybe_undo_verifications old_chain cur_chain common_height wallet_verified st).2.1.requested_merkle ∧
      tx ∈ (maybe_undo_verifications old_chain cur_chain common_height wallet_verified st).2.2 ∧
      maybe_undo_verifications same_chain same_chain common_height wallet_verified' st'
        = (same_chain, st', []) := by
  have hmem' : tx ∈ undo_verifications wallet_verified (common_height cur_chain old_chain) := by
    rw [undo_verifications, List.mem_map]
    exact ⟨(tx, h), List.mem_filter.mpr ⟨hmem, by simpa using hh⟩, rfl⟩
  rw [maybe_undo_verifications, if_pos hne]
  have := foldl_remove_absent (undo_verifications wallet_verified (common_height cur_chain old_chain))
    st tx (Or.inl hmem')
  refine ⟨this.1, this.2, hmem', ?_⟩
  rw [maybe_undo_verifications, if_neg (by simp)]

theorem maybe_undo_verifications_spec_witness :
    (maybe_undo_verifications 0 1 (fun _ _ => 10) [(7, 12)]
        ⟨fun t => if t = 7 then some 3 else none, {7}⟩).2.1.merkle_roots 7 = none ∧
      7 ∉ (maybe_undo_verifications 0 1 (fun _ _ => 10) [(7, 12)]
        ⟨fun t => if t = 7 then some 3 else none, {7}⟩).2.1.requested_merkle ∧
      7 ∈ (maybe_undo_verifications 0 1 (fun _ _ => 10) [(7, 12)]
        ⟨fun t => if t = 7 then some 3 else none, {7}⟩).2.2 ∧
      maybe_undo_verifications 4 4 (fun _ _ => 10) [(9, 2)]
          ⟨fun _ => none, ∅⟩
        = (4, ⟨fun _ => none, ∅⟩, []) :=
  maybe_undo_verifications_spec 0 1 (fun _ _ => 10) [(7, 12)]
    ⟨fun t => if t = 7 then some 3 else none, {7}⟩ 7 12 4 ⟨fun _ => none, ∅⟩ [(9, 2)]
    (by decide) (by decide) (by decide)

/-- Per-cycle inputs of the Request Dispatcher: the local chain height
(`self.blockchain.height()`), the header reader
(`self.blockchain.read_header`, from `blockchain.py`, not in `src/`) and the
checkpoint constant (`constants.net.max_checkpoint()`, not in `src/`). -/
structure DispatchCfg where
  local_height : Int
  read_header : Int → Option BlockHeader
  max_checkpoint : Nat

/-- The observable outcome of one `_request_proofs` cycle: the new proof
state, the verification tasks spawned this cycle (txid, height,
`use_individual_header_proof` flag, in processing order) and the heights
passed to `network.request_chunk` (in processing order). -/
structure DispatchResult where
  state : SpvState
  dispatched : List (TxId × Int × Bool)
  chunk_requests : List Int

/-- `len(set([height for (_, height) in unverified.items() if height // 2016
== tx_height // 2016]))` (verifier.py line 95); Python `//` on ints is floor
division, hence `Int.fdiv`. -/
def headers_in_chunk_period (unverified : List (TxId × Int)) (tx_height : Int) : Nat :=
  (((unverified.map Prod.snd).filter (fun h => h.fdiv 2016 == tx_height.fdiv 2016)).dedup).length

/-- The loop body of `SPV._request_proofs` (verifier.py lines 81-107),
recursing over the remaining unverified items; `unverified` is the full
wallet snapshot used by the chunk-period count, which the source takes once
before the loop. -/
def request_proofs_aux (cfg : DispatchCfg) (unverified : List (TxId × Int)) :
    List (TxId × Int) → SpvState → DispatchResult
  | [], st => ⟨st, [], []⟩
  | (tx_hash, tx_height) :: rest, st =>
    if tx_hash ∈ st.requested_merkle ∨ st.merkle_roots tx_hash ≠ none then
      request_proofs_aux cfg unverified rest st
    else if tx_height ≤ 0 ∨ cfg.local_height < tx_height then
      request_proofs_aux cfg unverified rest st
    else
      match cfg.read_header tx_height with
      | some _ =>
        let st' : SpvState := ⟨st.merkle_roots, insert tx_hash st.requested_merkle⟩
        let r := request_proofs_aux cfg unverified rest st'
        ⟨r.state, (tx_hash, tx_height, false) :: r.dispatched, r.chunk_requests⟩
      | none =>
        if tx_height < (cfg.max_checkpoint : Int) then
          if is_chunk_cheaper cfg.max_checkpoint (headers_in_chunk_period unverified tx_height) then
            let r := request_proofs_aux cfg unverified rest st
            ⟨r.state, r.dispatched, tx_height :: r.chunk_requests⟩
          else
            let st' : SpvState := ⟨st.merkle_roots, insert tx_hash st.requested_merkle⟩
            let r := request_proofs_aux cfg unverified rest st'
            ⟨r.state, (tx_hash, tx_height, true) :: r.dispatched, r.chunk_requests⟩
        else
          request_proofs_aux cfg unverified rest st

/-- One run of the Request Dispatcher, `SPV._request_proofs`. -/
def request_proofs (cfg : DispatchCfg) (unverified : List (TxId × Int)) (st : SpvState) :
    DispatchResult :=
  request_proofs_aux cfg unverified unverified st

theorem request_proofs_aux_roots_eq (cfg : DispatchCfg) (u l : List (TxId × Int))
    (st : SpvState) :
    (request_proofs_aux cfg u l st).state.merkle_roots = st.merkle_roots := by
  induction l generalizing st with
  | nil => rfl
  | cons p l ih =>
    obtain ⟨tx_hash, tx_height⟩ := p
    rw [request_proofs_aux]
    split
    · exact ih st
    · split
      · exact ih st
      · split
        · exact ih _
        · split
          · split
            · exact ih st
            · exact ih _
          · exact ih st

theorem request_proofs_aux_requested_mono (cfg : DispatchCfg) (u l : List (TxId × Int))
    (st : SpvState) (tx : TxId) (h : tx ∈ st.requested_merkle) :
    tx ∈ (request_proofs_aux cfg u l st).state.requested_merkle := by
  induction l generalizing st with
  | nil => exact h
  | cons p l ih
  =>
    obtain ⟨tx_hash, tx_height⟩ := p
    rw [request_proofs_aux]
    split
    · exact ih st h
    · split
      · exact ih st h
      · split
        · exact ih _ (Finset.mem_insert_of_mem h)
        · split
          · split
            · exact ih st h
            · exact ih _ (Finset.mem_insert_of_mem h)
          · exact ih st h


theorem request_proofs_aux_skip (cfg : DispatchCfg) (u l : List (TxId × Int))
    (st : SpvState) (tx : TxId)
    (h : tx ∈ st.requested_merkle ∨ st.merkle_roots tx ≠ none) :
    tx ∉ (request_proofs_aux cfg u l st).dispatched.map (fun d => d.1) := by
  induction l generalizing st with
  | nil => simp [request_proofs_aux]
  | cons p l ih =>
    obtain ⟨tx_hash, tx_height⟩ := p
    rw [request_proofs_aux]
    split
    · exact ih st h
    · rename_i hskip
      have hne : tx_hash ≠ tx := by
        rintro rfl
        rcases h with h | h
        · exact hskip (Or.inl h)
        · exact hskip (Or.inr h)
      have hrest := ih ⟨st.merkle_roots, insert tx_hash st.requested_merkle⟩
        (h.imp Finset.mem_insert_of_mem id)
      split
      · exact ih st h
      · split
        · intro hc
          rcases List.mem_cons.mp hc with hc | hc
          · exact hne hc.symm
          · exact hrest hc
        · split
          · split
            · exact ih st h
            · intro hc
              rcases List.mem_cons.mp hc with hc | hc
              · exact hne hc.symm
              · exact hrest hc
          · exact ih st h

theorem request_proofs_aux_count_le_one (cfg : DispatchCfg) (u l : List (TxId × Int))
    (st : SpvState) (tx : TxId) :
    ((request_proofs_aux cfg u l st).dispatched.map (fun d => d.1)).count tx ≤ 1 ∧
      (tx ∈ (request_proofs_aux cfg u l st).dispatched.map (fun d => d.1) →
        tx ∈ (request_proofs_aux cfg u l st).state.requested_merkle) := by
  induction l generalizing st with
  | nil => simp [request_proofs_aux]
  | cons p l ih =>
    obtain ⟨tx_hash, tx_height⟩ := p
    rw [request_proofs_aux]
    split
    · exact ih st
    · split
      · exact ih st
      · split
        · by_cases htx : tx_hash = tx
          · subst htx
            have habsent := request_proofs_aux_skip cfg u l
              ⟨st.merkle_roots, insert tx_hash st.requested_merkle⟩ tx_hash
              (Or.inl (Finset.mem_insert_self _ _))
            refine ⟨?_, fun _ => request_proofs_aux_requested_mono cfg u l _ tx_hash
              (Finset.mem_insert_self _ _)⟩
            show ((tx_hash : TxId) :: (request_proofs_aux cfg u l
                ⟨st.merkle_roots, insert tx_hash st.requested_merkle⟩).dispatched.map
                  (fun d => d.1)).count tx_hash ≤ 1
            rw [List.count_cons_self, List.count_eq_zero.mpr habsent]
          · have hrec := ih ⟨st.merkle_roots, insert tx_hash st.requested_merkle⟩
            constructor
            · show ((tx_hash : TxId) :: (request_proofs_aux cfg u l
                  ⟨st.merkle_roots, insert tx_hash st.requested_merkle⟩).dispatched.map
                    (fun d => d.1)).count tx ≤ 1
              rw [List.count_cons_of_ne (fun hc => htx hc.symm)]
              exact hrec.1
            · intro hmem
              rcases List.mem_cons.mp hmem with hc | hc
              · exact absurd hc.symm htx
              · exact hrec.2 hc
        · split
          · split
            · exact ih st
            · by_cases htx : tx_hash = tx
              · subst htx
                have habsent := request_proofs_aux_skip cfg u l
                  ⟨st.merkle_roots, insert tx_hash st.requested_merkle⟩ tx_hash
                  (Or.inl (Finset.mem_insert_self _ _))
                refine ⟨?_, fun _ => request_proofs_aux_requested_mono cfg u l _ tx_hash
                  (Finset.mem_insert_self _ _)⟩
                show ((tx_hash : TxId) :: (request_proofs_aux cfg u l
                    ⟨st.merkle_roots, insert tx_hash st.requested_merkle⟩).dispatched.map
                      (fun d => d.1)).count tx_hash ≤ 1
                rw [List.count_cons_self, List.count_eq_zero.mpr habsent]
              · have hrec := ih ⟨st.merkle_roots, insert tx_hash st.requested_merkle⟩
                constructor
                · show ((tx_hash : TxId) :: (request_proofs_aux cfg u l
                      ⟨st.merkle_roots, insert tx_hash st.requested_merkle⟩).dispatched.map
                        (fun d => d.1)).count tx ≤ 1
                  rw [List.count_cons_of_ne (fun hc => htx hc.symm)]
                  exact hrec.1
                · intro hmem
                  rcases List.mem_cons.mp hmem with hc | hc
                  · exact absurd hc.symm htx
                  · exact hrec.2 hc
          · exact ih st

/-- C1: at-most-one in-flight request per transaction id.  A transaction id
already in `requested_merkle` or `merkle_roots` is never dispatched by a
Dispatcher run; and across two successive runs with no intervening terminal
outcome (the second run starts from exactly the state the first produced),
the id is dispatched at most once in total. -/
theorem dispatcher_at_most_one_inflight (cfg₁ cfg₂ : DispatchCfg)
    (u₁ u₂ : List (TxId × Int)) (st : SpvState) (tx : TxId) :
    ((tx ∈ st.requested_merkle ∨ st.merkle_roots tx ≠ none) →
        tx ∉ (request_proofs cfg₁ u₁ st).dispatched.map (fun d => d.1)) ∧
      ((request_proofs cfg₁ u₁ st).dispatched.map (fun d => d.1)).count tx
          + ((request_proofs cfg₂ u₂
              (request_proofs cfg₁ u₁ st).state).dispatched.map (fun d => d.1)).count tx
        ≤ 1 := by
  simp only [request_proofs]
  refine ⟨fun h => request_proofs_aux_skip cfg₁ u₁ u₁ st tx h, ?_⟩
  by_cases hmem : tx ∈ (request_proofs_aux cfg₁ u₁ u₁ st).dispatched.map (fun d => d.1)
  · have h1 := request_proofs_aux_count_le_one cfg₁ u₁ u₁ st tx
    have h2 : tx ∉ (request_proofs_aux cfg₂ u₂ u₂
        (request_proofs_aux cfg₁ u₁ u₁ st).state).dispatched.map (fun d => d.1) :=
      request_proofs_aux_skip cfg₂ u₂ u₂ _ tx (Or.inl (h1.2 hmem))
    have h3 := List.count_eq_zero.mpr h2
    have h4 := h1.1
    omega
  · have h1 := List.count_eq_zero.mpr hmem
    have h2 := (request_proofs_aux_count_le_one cfg₂ u₂ u₂
      (request_proofs_aux cfg₁ u₁ u₁ st).state tx).1
    omega

theorem dispatcher_at_most_one_inflight_witness :
    (5 ∉ (request_proofs ⟨10, fun _ => some ⟨0, 0⟩, 0⟩ [(5, 3)]
        ⟨fun _ => none, {5}⟩).dispatched.map (fun d => d.1)) ∧
      ((request_proofs ⟨10, fun _ => some ⟨0, 0⟩, 0⟩ [(5, 3)]
          ⟨fun _ => none, {5}⟩).dispatched.map (fun d => d.1)).count 5
          + ((request_proofs ⟨10, fun _ => some ⟨0, 0⟩, 0⟩ [(5, 3)]
              (request_proofs ⟨10, fun _ => some ⟨0, 0⟩, 0⟩ [(5, 3)]
                ⟨fun _ => none, {5}⟩).state).dispatched.map (fun d => d.1)).count 5
        ≤ 1 :=
  ⟨(dispatcher_at_most_one_inflight ⟨10, fun _ => some ⟨0, 0⟩, 0⟩ ⟨10, fun _ => some ⟨0, 0⟩, 0⟩
      [(5, 3)] [(5, 3)] ⟨fun _ => none, {5}⟩ 5).1 (Or.inl (by decide)),
    (dispatcher_at_most_one_inflight ⟨10, fun _ => some ⟨0, 0⟩, 0⟩ ⟨10, fun _ => some ⟨0, 0⟩, 0⟩
      [(5, 3)] [(5, 3)] ⟨fun _ => none, {5}⟩ 5).2⟩

theorem request_proofs_aux_chunk (cfg : DispatchCfg) (u : List (TxId × Int))
    (tx : TxId) (h : Int)
    (hpos : 0 < h) (hloc : h ≤ cfg.local_height)
    (hcp : h < (cfg.max_checkpoint : Int))
    (hhdr : cfg.read_header h = none)
    (hcheap : is_chunk_cheaper cfg.max_checkpoint (headers_in_chunk_period u h) = true)
    (l : List (TxId × Int)) (st : SpvState)
    (huniq : ∀ p ∈ l, p.1 = tx → p.2 = h)
    (hreq : tx ∉ st.requested_merkle) (hroot : st.merkle_roots tx = none) :
    ((tx, h) ∈ l → h ∈ (request_proofs_aux cfg u l st).chunk_requests) ∧
      tx ∉ (request_proofs_aux cfg u l st).dispatched.map (fun d => d.1) := by
  induction l generalizing st with
  | nil => simp [request_proofs_aux]
  | cons p l ih =>
    obtain ⟨tx_hash, tx_height⟩ := p
    have huniq' : ∀ p ∈ l, p.1 = tx → p.2 = h :=
      fun p hp => huniq p (List.mem_cons_of_mem _ hp)
    have hhead : tx_hash = tx → tx_height = h :=
      fun hh => huniq (tx_hash, tx_height) (List.mem_cons_self _ _) hh
    rw [request_proofs_aux]
    split
    · rename_i hskip
      have hne : tx_hash ≠ tx := by
        rintro rfl
        rcases hskip with hs | hs
        · exact hreq hs
        · exact hs hroot
      have hthis := ih st huniq' hreq hroot
      constructor
      · intro hmem
        rcases List.mem_cons.mp hmem with hc | hc
        · cases hc
          exact absurd rfl hne
        · exact hthis.1 hc
      · exact hthis.2
    · split
      · rename_i hts
        have hne : tx_hash ≠ tx := by
          rintro rfl
          rw [hhead rfl] at hts
          rcases hts with hs | hs
          · omega
          · omega
        have hthis := ih st huniq' hreq hroot
        constructor
        · intro hmem
          rcases List.mem_cons.mp hmem with hc | hc
          · cases hc
            exact absurd rfl hne
          · exact hthis.1 hc
        · exact hthis.2
      · split
        · rename_i heq
          have hne : tx_hash ≠ tx := by
            rintro rfl
            rw [hhead rfl, hhdr] at heq
            cases heq
          have hreq' : tx ∉ insert tx_hash st.requested_merkle := fun hc =>
            (Finset.mem_insert.mp hc).elim (fun e => hne e.symm) hreq
          have hthis := ih ⟨st.merkle_roots, insert tx_hash st.requested_merkle⟩
            huniq' hreq' hroot
          constructor
          · intro hmem
            rcases List.mem_cons.mp hmem with hc | hc
            · cases hc
              exact absurd rfl hne
            · exact hthis.1 hc
          · intro hc
            rcases List.mem_cons.mp hc with hc | hc
            · exact hne hc.symm
            · exact hthis.2 hc
        · split
          · split
            · rename_i hcond
              have hthis := ih st huniq' hreq hroot
              constructor
              · intro hmem
                rcases List.mem_cons.mp hmem with hc | hc
                · cases hc
                  exact List.mem_cons_self _ _
                · exact List.mem_cons_of_mem _ (hthis.1 hc)
              · exact hthis.2
            · rename_i hnotcheap
              have hne : tx_hash ≠ tx := by
                rintro rfl
                rw [hhead rfl] at hnotcheap
                exact hnotcheap hcheap
              have hreq' : tx ∉ insert tx_hash st.requested_merkle := fun hc =>
                (Finset.mem_insert.mp hc).elim (fun e => hne e.symm) hreq
              have hthis := ih ⟨st.merkle_roots, insert tx_hash st.requested_merkle⟩
                huniq' hreq' hroot
              constructor
              · intro hmem
                rcases List.mem_cons.mp hmem with hc | hc
                · cases hc
                  exact absurd rfl hne
                · exact hthis.1 hc
              · intro hc
                rcases List.mem_cons.mp hc with hc | hc
                · exact hne hc.symm
                · exact hthis.2 hc
          · rename_i hnotcp
            have hne : tx_hash ≠ tx := by
              rintro rfl
              rw [hhead rfl] at hnotcp
              exact hnotcp hcp
            have hthis := ih st huniq' hreq hroot
            constructor
            · intro hmem
              rcases List.mem_cons.mp hmem with hc | hc
              · cases hc
                exact absurd rfl hne
              · exact hthis.1 hc
            · exact hthis.2

/-- C6 (amended): for every unverified transaction whose height is positive,
not above the local chain height and strictly below the maximum checkpoint
height, whose header is absent, whose id is not already tracked in
`requested_merkle` or `merkle_roots`, and for which enough pending
transactions share its 2016-header retarget period to make the chunk cheaper,
a Dispatcher cycle issues a header-chunk request at that transaction's height
and dispatches no verification task for that transaction in that cycle. -/
theorem dispatcher_chunk_request (cfg : DispatchCfg) (u : List (TxId × Int))
    (st : SpvState) (tx : TxId) (h : Int)
    (hmem : (tx, h) ∈ u)
    (huniq : ∀ p ∈ u, p.1 = tx → p.2 = h)
    (hpos : 0 < h) (hloc : h ≤ cfg.local_height)
    (hcp : h < (cfg.max_checkpoint : Int))
    (hhdr : cfg.read_header h = none)
    (hreq : tx ∉ st.requested_merkle) (hroot : st.merkle_roots tx = none)
    (hcheap : is_chunk_cheaper cfg.max_checkpoint (headers_in_chunk_period u h) = true) :
    h ∈ (request_proofs cfg u st).chunk_requests ∧
      tx ∉ (request_proofs cfg u st).dispatched.map (fun d => d.1) := by
  have := request_proofs_aux_chunk cfg u tx h hpos hloc hcp hhdr hcheap u st huniq hreq hroot
  exact ⟨this.1 hmem, this.2⟩

/-- Chain height used by the chunk-request scenarios: `2^600`, a checkpoint
large enough that the cost model's break-even count is only 10. -/
def bigM : Int := ((2 ^ 600 : Nat) : Int)

def chunk_cex_cfg : DispatchCfg :=
  ⟨bigM, fun _ => none, 2 ^ 600 - 1⟩

/-- Ten unverified transactions in the same retarget period; transaction `0`
sits exactly at the maximum checkpoint height `2^600 - 1`. -/
def chunk_cex_unverified : List (TxId × Int) :=
  [(0, bigM - 1), (1, bigM - 2), (2, bigM - 3), (3, bigM - 4), (4, bigM - 5),
   (5, bigM - 6), (6, bigM - 7), (7, bigM - 8), (8, bigM - 9), (9, bigM - 10)]

def chunk_cex_state : SpvState :=
  ⟨fun _ => none, {1, 2, 3, 4, 5, 6, 7, 8, 9}⟩

set_option maxRecDepth 40000 in
/-- C6 (counterexample to the claim as stated): transaction `0` sits at
height `2^600 - 1`, which is at most (indeed equal to) the maximum checkpoint
height; its header is absent, it is eligible (positive height, within the
local height, untracked) and ten pending transactions share its retarget
period, making the chunk cheaper — yet the Dispatcher cycle issues no
header-chunk request at all (the source requires the height to be strictly
below the checkpoint), and dispatches nothing. -/
theorem dispatcher_chunk_request_counterexample :
    (0, bigM - 1) ∈ chunk_cex_unverified ∧
      bigM - 1 ≤ (chunk_cex_cfg.max_checkpoint : Int) ∧
      chunk_cex_cfg.read_header (bigM - 1) = none ∧
      0 < bigM - 1 ∧
      bigM - 1 ≤ chunk_cex_cfg.local_height ∧
      0 ∉ chunk_cex_state.requested_merkle ∧
      chunk_cex_state.merkle_roots 0 = none ∧
      is_chunk_cheaper chunk_cex_cfg.max_checkpoint
          (headers_in_chunk_period chunk_cex_unverified (bigM - 1)) = true ∧
      (request_proofs chunk_cex_cfg chunk_cex_unverified chunk_cex_state).chunk_requests
          = [] ∧
      (request_proofs chunk_cex_cfg chunk_cex_unverified chunk_cex_state).dispatched
          = [] := by
  refine ⟨by decide, by decide, rfl, by decide, by decide, by decide, rfl, ?_, by decide, by decide⟩
  have hcount : headers_in_chunk_period chunk_cex_unverified (bigM - 1) = 10 := by decide
  have hpow : (2 ^ 600 - 1 : Nat) + 1 = 2 ^ 600 := by
    have h1 : (1 : Nat) ≤ 2 ^ 600 := Nat.one_le_two_pow
    omega
  rw [hcount]
  show decide (2016 * 80 + 32 * ceilLog2 ((2 ^ 600 - 1 : Nat) + 1) + 32
      < 10 * (32 * ceilLog2 ((2 ^ 600 - 1 : Nat) + 1) + 32 + 80)) = true
  rw [hpow, ceilLog2_eq_clog, Nat.clog_pow 2 600 (by norm_num)]
  decide

/-- Ten eligible unverified transactions, all strictly below the maximum
checkpoint height `2^600 - 1` and in the same retarget period. -/
def chunk_wit_unverified : List (TxId × Int) :=
  [(0, bigM - 2), (1, bigM - 3), (2, bigM - 4), (3, bigM - 5), (4, bigM - 6),
   (5, bigM - 7), (6, bigM - 8), (7, bigM - 9), (8, bigM - 10), (9, bigM - 11)]

set_option maxRecDepth 40000 in
theorem chunk_wit_cheap :
    is_chunk_cheaper chunk_cex_cfg.max_checkpoint
      (headers_in_chunk_period chunk_wit_unverified (bigM - 2)) = true := by
  have hcount : headers_in_chunk_period chunk_wit_unverified (bigM - 2) = 10 := by decide
  have hpow : (2 ^ 600 - 1 : Nat) + 1 = 2 ^ 600 := by
    have h1 : (1 : Nat) ≤ 2 ^ 600 := Nat.one_le_two_pow
    omega
  rw [hcount]
  show decide (2016 * 80 + 32 * ceilLog2 ((2 ^ 600 - 1 : Nat) + 1) + 32
      < 10 * (32 * ceilLog2 ((2 ^ 600 - 1 : Nat) + 1) + 32 + 80)) = true
  rw [hpow, ceilLog2_eq_clog, Nat.clog_pow 2 600 (by norm_num)]
  decide

set_option maxRecDepth 40000 in
theorem dispatcher_chunk_request_witness :
    (bigM - 2) ∈ (request_proofs chunk_cex_cfg chunk_wit_unverified
        ⟨fun _ => none, ∅⟩).chunk_requests ∧
      0 ∉ (request_proofs chunk_cex_cfg chunk_wit_unverified
        ⟨fun _ => none, ∅⟩).dispatched.map (fun d => d.1) :=
  dispatcher_chunk_request chunk_cex_cfg chunk_wit_unverified ⟨fun _ => none, ∅⟩ 0 (bigM - 2)
    (by decide) (by decide) (by decide) (by decide) (by decide) rfl (by decide) rfl
    chunk_wit_cheap

/-- How an awaited proof/header request can fail:
`untrustedServer b` models `UntrustedServerReturnedError` whose
`original_exception` is an `aiorpcx.jsonrpc.RPCError` iff `b` (the peer
reports the transaction unknown/invalid at the height); `transport` models
any other exception (generic transport failure), which the task's
`except` clause does not catch. -/
inductive RequestError where
  | untrustedServer (original_is_rpc_error : Bool)
  | transport
deriving DecidableEq

/-- The server's response to `get_merkle_for_transaction`: a dict with
`block_height`, `pos` and `merkle` keys. -/
structure MerkleResp where
  block_height : Int
  pos : Nat
  merkle : List Hash
deriving DecidableEq

/-- How `_request_and_verify_single_proof` terminates: returning normally,
letting an exception propagate out of the task, or raising
`GracefulDisconnect` against the serving peer. -/
inductive TaskOutcome where
  | normal
  | propagated
  | disconnect
deriving DecidableEq

/-- `TxMinedInfo` as built on the success path (verifier.py lines 162-165). -/
structure TxMinedInfo where
  height : Int
  timestamp : Int
  txpos : Nat
  header_hash : Hash
deriving DecidableEq

/-- Observable updates performed by a Verification Task, in execution
order: storing a root in `merkle_roots`, discarding from
`requested_merkle`, committing a verified record via
`wallet.add_verified_tx`, and removing via `wallet.remove_unverified_tx`. -/
inductive TaskEvent where
  | storeRoot (tx : TxId) (root : Hash)
  | discardRequested (tx : TxId)
  | addVerifiedTx (tx : TxId) (info : TxMinedInfo)
  | removeUnverifiedTx (tx : TxId) (height : Int)
deriving DecidableEq

structure TaskResult where
  state : SpvState
  events : List TaskEvent
  outcome : TaskOutcome

/-- The network-facing collaborators of one Verification Task (all outside
`src/`): the awaited results of `get_merkle_for_transaction` and
`interface.get_block_header` (the latter paired with
`proof_was_provided`), whether `get_interface_for_stream_id` returned an
interface, the two `blockchain().read_header` attempts (before and after
taking `bhi_lock`; the chain may change in between), and the
`skipmerklecheck` config flag. -/
structure NetworkModel where
  interface_available : Bool
  get_merkle : Except RequestError MerkleResp
  get_block_header : Except RequestError (BlockHeader × Bool)
  read_header1 : Int → Option BlockHeader
  read_header2 : Int → Option BlockHeader
  skipmerklecheck : Bool

/-- The awaiting phase of the task (verifier.py lines 110-126): in
individual-header-proof mode a missing interface raises a generic exception
(`.error none`, uncaught); otherwise any `UntrustedServerReturnedError` or
transport failure from either awaited request surfaces (`.error (some e)`). -/
def task_fetch (net : NetworkModel) (use_individual_header_proof : Bool) :
    Except (Option RequestError) (MerkleResp × Option BlockHeader) :=
  if use_individual_header_proof then
    if net.interface_available = false then
      .error none
    else
      match net.get_merkle, net.get_block_header with
      | .error e, _ => .error (some e)
      | .ok _, .error e => .error (some e)
      | .ok m, .ok (hd, _) => .ok (m, some hd)
  else
    match net.get_merkle with
    | .error e => .error (some e)
    | .ok m => .ok (m, none)

/-- Header resolution (verifier.py lines 135-144): in individual mode the
header came with the fetch; otherwise read it from the chain, retrying once
under `bhi_lock` if absent. -/
def resolve_header (net : NetworkModel) (use_individual_header_proof : Bool)
    (header0 : Option BlockHeader) (block_height : Int) : Option BlockHeader :=
  if use_individual_header_proof then
    header0
  else
    match net.read_header1 block_height with
    | some hd => some hd
    | none => net.read_header2 block_height

/-- The success path (verifier.py lines 156-166): store the root, discard
from `requested_merkle`, and — when a wallet is attached — build the
`TxMinedInfo` and commit it.  If this point is reached with no header (only
possible under `skipmerklecheck`), `header.get('merkle_root')` on `None`
raises `AttributeError`, which propagates. -/
def success_commit (hash_header : BlockHeader → Hash) (wallet_attached : Bool)
    (st : SpvState) (tx_hash : TxId) (header : Option BlockHeader)
    (tx_height : Int) (pos : Nat) : TaskResult :=
  match header with
  | none => ⟨st, [], .propagated⟩
  | some hd =>
    let st' : SpvState :=
      ⟨fun t => if t = tx_hash then some hd.merkle_root else st.merkle_roots t,
        st.requested_merkle.erase tx_hash⟩
    if wallet_attached then
      ⟨st', [.storeRoot tx_hash hd.merkle_root, .discardRequested tx_hash,
          .addVerifiedTx tx_hash ⟨tx_height, hd.timestamp, pos, hash_header hd⟩], .normal⟩
    else
      ⟨st', [.storeRoot tx_hash hd.merkle_root, .discardRequested tx_hash], .normal⟩

/-- `SPV._request_and_verify_single_proof` (verifier.py lines 109-168).
`hash_header` (from `blockchain.py`, outside `src/`) is passed in as an
opaque function.  An `UntrustedServerReturnedError` wrapping an `RPCError`
with a wallet attached means "transaction not at that height": remove it
from the wallet's unverified set, discard the in-flight marker, and return
normally; every other fetch failure propagates.  After a successful fetch
the server-reported `block_height` replaces the requested one, the header is
resolved, and the Merkle proof is verified; on verification failure the task
tolerates it (`skipmerklecheck`), propagates it (no wallet) or raises
`GracefulDisconnect`. -/
def request_and_verify_single_proof
    (hmr : List Hash → Hash → Nat → Hash) (hash_header : BlockHeader → Hash)
    (net : NetworkModel) (wallet_attached : Bool)
    (st : SpvState) (tx_hash : TxId) (tx_height : Int)
    (use_individual_header_proof : Bool) : TaskResult :=
  match task_fetch net use_individual_header_proof with
  | .error none => ⟨st, [], .propagated⟩
  | .error (some (.untrustedServer is_rpc)) =>
    if is_rpc && wallet_attached then
      ⟨⟨st.merkle_roots, st.requested_merkle.erase tx_hash⟩,
        [.removeUnverifiedTx tx_hash tx_height, .discardRequested tx_hash], .normal⟩
    else
      ⟨st, [], .propagated⟩
  | .error (some .transport) => ⟨st, [], .propagated⟩
  | .ok (merkle, header0) =>
    let header := resolve_header net use_individual_header_proof header0 merkle.block_height
    match verify_tx_is_in_block hmr tx_hash merkle.merkle merkle.pos header merkle.block_height with
    | .ok _ =>
      success_commit hash_header wallet_attached st tx_hash header merkle.block_height merkle.pos
    | .error _ =>
      if net.skipmerklecheck then
        success_commit hash_header wallet_attached st tx_hash header merkle.block_height merkle.pos
      else if wallet_attached = false then
        ⟨st, [], .propagated⟩
      else
        ⟨st, [], .disconnect⟩

theorem task_fetch_of_merkle_error (net : NetworkModel) (use_flag : Bool)
    (e : RequestError) (hi : net.interface_available = true)
    (hm : net.get_merkle = .error e) :
    task_fetch net use_flag = .error (some e) := by
  cases use_flag <;> simp [task_fetch, hi, hm]

/-- C7: with a wallet attached and the interface available, a proof request
failing because the peer reports the transaction unknown/invalid at the
requested height (`UntrustedServerReturnedError` wrapping an `RPCError`)
makes the task remove the transaction from the wallet's unverified set,
discard its id from `requested_merkle`, leave `merkle_roots` unchanged (no
entry created) and terminate normally; an `UntrustedServerReturnedError`
wrapping anything else, or a generic transport failure, propagates with no
state change and no wallet call. -/
theorem task_not_found_at_height
    (hmr : List Hash → Hash → Nat → Hash) (hash_header : BlockHeader → Hash)
    (net : NetworkModel) (st : SpvState) (tx_hash : TxId) (tx_height : Int)
    (use_flag : Bool)
    (hi : net.interface_available = true) :
    (net.get_merkle = .error (.untrustedServer true) →
        request_and_verify_single_proof hmr hash_header net true st tx_hash tx_height use_flag
          = ⟨⟨st.merkle_roots, st.requested_merkle.erase tx_hash⟩,
              [.removeUnverifiedTx tx_hash tx_height, .discardRequested tx_hash], .normal⟩) ∧
      (net.get_merkle = .error .transport →
        request_and_verify_single_proof hmr hash_header net true st tx_hash tx_height use_flag
          = ⟨st, [], .propagated⟩) ∧
      (net.get_merkle = .error (.untrustedServer false) →
        request_and_verify_single_proof hmr hash_header net true st tx_hash tx_height use_flag
          = ⟨st, [], .propagated⟩) := by
  refine ⟨fun hm => ?_, fun hm => ?_, fun hm => ?_⟩ <;>
    (rw [request_and_verify_single_proof, task_fetch_of_merkle_error net use_flag _ hi hm]
     try rfl)

/-- Concrete network response where the peer reports the transaction
unknown at the requested height. -/
def notfound_net : NetworkModel :=
  ⟨true, .error (.untrustedServer true), .ok (⟨0, 0⟩, true), fun _ => none, fun _ => none, false⟩

theorem task_not_found_at_height_witness :
    request_and_verify_single_proof (fun _ _ _ => 0) (fun _ => 0) notfound_net true
        ⟨fun _ => none, {3}⟩ 3 9 false
      = ⟨⟨(⟨fun _ => none, {3}⟩ : SpvState).merkle_roots,
          (⟨fun _ => none, {3}⟩ : SpvState).requested_merkle.erase 3⟩,
          [.removeUnverifiedTx 3 9, .discardRequested 3], .normal⟩ :=
  (task_not_found_at_height (fun _ _ _ => 0) (fun _ => 0) notfound_net
    ⟨fun _ => none, {3}⟩ 3 9 false rfl).1 rfl

def is_wallet_commit_for (tx : TxId) : TaskEvent → Bool
  | .addVerifiedTx t _ => t == tx
  | _ => false

def is_store_root_for (tx : TxId) : TaskEvent → Bool
  | .storeRoot t _ => t == tx
  | _ => false

/-- Whether, in an event trace, the wallet's verified record for `tx` is
committed strictly before `tx`'s Merkle root is stored — the commit order
the claim asserts for the success path. -/
def record_before_root (tx : TxId) (events : List TaskEvent) : Bool :=
  match events.findIdx? ( is_wallet_commit_for tx), events.findIdx? ( is_store_root_for tx) with
  | some i, some j => decide (i < j)
  | _, _ => false

/-- Network responses producing a clean success-path run: the proof request
succeeds at height 100 with an empty branch, and the header at height 100 is
available locally with root 7. -/
def success_net : NetworkModel :=
  ⟨true, .ok ⟨100, 0, []⟩, .ok (⟨7, 1000⟩, true), fun _ => some ⟨7, 1000⟩, fun _ => none, false⟩

/-- C8 (counterexample to the claim as stated): on a concrete success-path
run with a wallet attached, the event trace is exactly
store-root → discard-from-requested → commit-record-to-wallet; the verified
record is built and committed to the wallet after the root is stored, and
nothing is discarded from the wallet's unverified set — so the claimed
commit order (compute verified record, then store root, then discard from
the wallet's unverified set) does not hold. -/
theorem task_commit_order_counterexample :
    (request_and_verify_single_proof (fun _ _ _ => 7) (fun hd => hd.merkle_root) success_net true
          ⟨fun _ => none, {5}⟩ 5 100 false).events
        = [.storeRoot 5 7, .discardRequested 5, .addVerifiedTx 5 ⟨100, 1000, 0, 7⟩] ∧
      (request_and_verify_single_proof (fun _ _ _ => 7) (fun hd => hd.merkle_root) success_net true
          ⟨fun _ => none, {5}⟩ 5 100 false).state.merkle_roots 5 = some 7 ∧
      record_before_root 5 (request_and_verify_single_proof (fun _ _ _ => 7)
          (fun hd => hd.merkle_root) success_net true ⟨fun _ => none, {5}⟩ 5 100 false).events
        = false :=
  ⟨rfl, rfl, rfl⟩

/-- C8 (amended): with a wallet attached, whenever a Verification Task run
creates or changes its transaction's `merkle_roots` entry (the success
path), the run terminates normally, the entry holds the header's root, and
the updates happen in the order: store the root in `merkle_roots`, then
discard the id from `requested_merkle`, then build the verified record and
commit it to the wallet — so presence in `merkle_roots` after a completed
run implies the wallet also recorded the verified-tx-info. -/
theorem task_success_commit_order
    (hmr : List Hash → Hash → Nat → Hash) (hash_header : BlockHeader → Hash)
    (net : NetworkModel) (st : SpvState) (tx_hash : TxId) (tx_height : Int)
    (use_flag : Bool)
    (hchanged :
      (request_and_verify_single_proof hmr hash_header net true st tx_hash tx_height
          use_flag).state.merkle_roots tx_hash
        ≠ st.merkle_roots tx_hash) :
    ∃ root info,
      (request_and_verify_single_proof hmr hash_header net true st tx_hash tx_height
            use_flag).events
          = [.storeRoot tx_hash root, .discardRequested tx_hash, .addVerifiedTx tx_hash info] ∧
        (request_and_verify_single_proof hmr hash_header net true st tx_hash tx_height
            use_flag).state.merkle_roots tx_hash = some root ∧
        (request_and_verify_single_proof hmr hash_header net true st tx_hash tx_height
            use_flag).outcome = .normal := by
  cases hf : task_fetch net use_flag with
  | error e =>
    match e with
    | none =>
      have hr : request_and_verify_single_proof hmr hash_header net true st tx_hash tx_height
          use_flag = ⟨st, [], .propagated⟩ := by
        rw [request_and_verify_single_proof, hf]
      rw [hr] at hchanged
      exact absurd rfl hchanged
    | some (.untrustedServer is_rpc) =>
      cases is_rpc with
      | false =>
        have hr : request_and_verify_single_proof hmr hash_header net true st tx_hash tx_height
            use_flag = ⟨st, [], .propagated⟩ := by
          rw [request_and_verify_single_proof, hf]
          rfl
        rw [hr] at hchanged
        exact absurd rfl hchanged
      | true =>
        have hr : request_and_verify_single_proof hmr hash_header net true st tx_hash tx_height
            use_flag
            = ⟨⟨st.merkle_roots, st.requested_merkle.erase tx_hash⟩,
                [.removeUnverifiedTx tx_hash tx_height, .discardRequested tx_hash], .normal⟩ := by
          rw [request_and_verify_single_proof, hf]
          rfl
        rw [hr] at hchanged
        exact absurd rfl hchanged
    | some .transport =>
      have hr : request_and_verify_single_proof hmr hash_header net true st tx_hash tx_height
          use_flag = ⟨st, [], .propagated⟩ := by
        rw [request_and_verify_single_proof, hf]
      rw [hr] at hchanged
      exact absurd rfl hchanged
  | ok p =>
    obtain ⟨merkle, header0⟩ := p
    have hsucc : request_and_verify_single_proof hmr hash_header net true st tx_hash
          tx_height use_flag
          = success_commit hash_header true st tx_hash
              (resolve_header net use_flag header0 merkle.block_height)
              merkle.block_height merkle.pos →
        ∃ root info,
          (request_and_verify_single_proof hmr hash_header net true st tx_hash tx_height
                use_flag).events
              = [.storeRoot tx_hash root, .discardRequested tx_hash,
                  .addVerifiedTx tx_hash info] ∧
            (request_and_verify_single_proof hmr hash_header net true st tx_hash tx_height
                use_flag).state.merkle_roots tx_hash = some root ∧
            (request_and_verify_single_proof hmr hash_header net true st tx_hash tx_height
                use_flag).outcome = .normal := by
      intro hr
      cases hh : resolve_header net use_flag header0 merkle.block_height with
      | none =>
        rw [hh] at hr
        rw [success_commit] at hr
        rw [hr] at hchanged
        exact absurd rfl hchanged
      | some hd =>
        rw [hh] at hr
        refine ⟨hd.merkle_root,
          ⟨merkle.block_height, hd.timestamp, merkle.pos, hash_header hd⟩, ?_, ?_, ?_⟩ <;>
          rw [hr] <;> simp [success_commit]
    cases hv : verify_tx_is_in_block hmr tx_hash merkle.merkle merkle.pos
        (resolve_header net use_flag header0 merkle.block_height) merkle.block_height with
    | ok u =>
      refine hsucc ?_
      rw [request_and_verify_single_proof, hf]
      simp only [hv]
    | error err =>
      cases hsk : net.skipmerklecheck with
      | true =>
        refine hsucc ?_
        rw [request_and_verify_single_proof, hf]
        simp only [hv, hsk]
        simp
      | false =>
        have hr : request_and_verify_single_proof hmr hash_header net true st tx_hash tx_height
            use_flag = ⟨st, [], .disconnect⟩ := by
          rw [request_and_verify_single_proof, hf]
          simp only [hv, hsk]
          simp
        rw [hr] at hchanged
        exact absurd rfl hchanged

theorem task_success_commit_order_witness :
    ∃ root info,
      (request_and_verify_single_proof (fun _ _ _ => 7) (fun hd => hd.merkle_root) success_net
            true ⟨fun _ => none, {5}⟩ 5 100 false).events
          = [.storeRoot 5 root, .discardRequested 5, .addVerifiedTx 5 info] ∧
        (request_and_verify_single_proof (fun _ _ _ => 7) (fun hd => hd.merkle_root) success_net
            true ⟨fun _ => none, {5}⟩ 5 100 false).state.merkle_roots 5 = some root ∧
        (request_and_verify_single_proof (fun _ _ _ => 7) (fun hd => hd.merkle_root) success_net
            true ⟨fun _ => none, {5}⟩ 5 100 false).outcome = .normal :=
  task_success_commit_order (fun _ _ _ => 7) (fun hd => hd.merkle_root) success_net
    ⟨fun _ => none, {5}⟩ 5 100 false (by decide)
